import Mathlib

/-!
Verification of the stopwatch timer in src/main.rs.

The Rust struct `Stopwatch` holds a monotonic origin `start_point : Instant`
plus numeric state `interval_start`, `lap_start`, `end`, `elapsed` (all f64,
seconds since the origin) and `laps : Vec<f64>`.  We embed the numeric state
over the rationals; the clock is modelled by passing each operation the
timepoint `tp` that its internal `get_timepoint()` call would return
(seconds since `start_point`), so the opaque `Instant` origin itself is not
stored.  Every mutating operation returns the updated state together with
the f64 value that the Rust method returns.
-/

/-- State of `struct Stopwatch` (src/main.rs lines 5-11), with the opaque
`start_point : Instant` dropped: all timepoints are seconds since it. -/
structure Stopwatch where
  interval_start : ℚ
  lap_start : ℚ
  «end» : ℚ
  elapsed : ℚ
  laps : List ℚ
deriving DecidableEq

/-- Translation of `Stopwatch::new` (src/main.rs lines 15-25): note the
source initializes `end: 3.0`, everything else numeric to `0.0` (written
here as the equal rational numerals 3 and 0). -/
def Stopwatch.new : Stopwatch :=
  { interval_start := 0,
    lap_start := 0,
    «end» := 3,
    elapsed := 0,
    laps := [] }

/-- Translation of `Stopwatch::start` (src/main.rs lines 45-61).  `tp` is
the value `self.get_timepoint()` returns at this call.  The source first
stores `self.end = tp`, then rejects with `-1.0` when already running,
otherwise sets `interval_start = tp` and returns `tp`. -/
def Stopwatch.start (s : Stopwatch) (tp : ℚ) : Stopwatch × ℚ :=
  if s.interval_start ≠ 0 then
    ({ s with «end» := tp }, -1)
  else
    ({ s with «end» := tp, interval_start := tp }, tp)

/-- Translation of `Stopwatch::stop` (src/main.rs lines 64-86).  The source
stores `self.end = tp`, rejects with `-1.0` when idle, otherwise adds the
interval to `elapsed`, pushes it on `laps`, zeroes `interval_start` and
`lap_start`, and returns the updated `self.elapsed`. -/
def Stopwatch.stop (s : Stopwatch) (tp : ℚ) : Stopwatch × ℚ :=
  if s.interval_start = 0 then
    ({ s with «end» := tp }, -1)
  else
    let interval : ℚ := tp - s.interval_start
    ({ s with «end» := tp,
              elapsed := s.elapsed + interval,
              laps := s.laps ++ [interval],
              interval_start := 0,
              lap_start := 0 },
     s.elapsed + interval)

/-- Translation of `Stopwatch::lap` (src/main.rs lines 89-108).  The source
stores `self.end = tp`, rejects with `-1.0` when idle, otherwise adds the
interval to `elapsed`, pushes it on `laps`, re-arms `interval_start = tp`,
and returns `interval` (not the cumulative elapsed). -/
def Stopwatch.lap (s : Stopwatch) (tp : ℚ) : Stopwatch × ℚ :=
  if s.interval_start = 0 then
    ({ s with «end» := tp }, -1)
  else
    let interval : ℚ := tp - s.interval_start
    ({ s with «end» := tp,
              elapsed := s.elapsed + interval,
              laps := s.laps ++ [interval],
              interval_start := tp },
     interval)

/-- Translation of `Stopwatch::get_lap` (src/main.rs lines 111-117): in
bounds returns `laps[index]`, otherwise `-1.0`; it reads the state only. -/
def Stopwatch.get_lap (s : Stopwatch) (index : Nat) : ℚ :=
  if h : index < s.laps.length then s.laps.get ⟨index, h⟩ else -1

/-- Translation of `Stopwatch::get_lap_count` (src/main.rs lines 119-121). -/
def Stopwatch.get_lap_count (s : Stopwatch) : Nat :=
  s.laps.length

/-- One API call, for reasoning about arbitrary call sequences.  The clock
reading `tp` accompanies the operations that call `get_timepoint()`. -/
inductive Op where
  | start
  | stop
  | lap
  | get_lap (index : Nat)
  | get_lap_count
deriving DecidableEq

/-- The state after one API call.  `get_lap` and `get_lap_count` read the
state without mutating it, so they leave it untouched. -/
def Stopwatch.step (s : Stopwatch) (o : Op) (tp : ℚ) : Stopwatch :=
  match o with
  | Op.start => (s.start tp).1
  | Op.stop => (s.stop tp).1
  | Op.lap => (s.lap tp).1
  | Op.get_lap _ => s
  | Op.get_lap_count => s

/-- Run a sequence of calls, each paired with its clock reading. -/
def Stopwatch.runFrom (s : Stopwatch) (tr : List (Op × ℚ)) : Stopwatch :=
  tr.foldl (fun t p => t.step p.1 p.2) s

/-- The monotonic-clock assumption on a trace: every clock reading is at
least `lo` (a lower bound carried from the past) and the readings never
decrease along the trace. -/
def monoTimes (lo : ℚ) : List (Op × ℚ) → Prop
  | [] => True
  | p :: rest => lo ≤ p.2 ∧ monoTimes p.2 rest

instance monoTimesDecidable (lo : ℚ) (tr : List (Op × ℚ)) :
    Decidable (monoTimes lo tr) := by
  induction tr generalizing lo with
  | nil => exact isTrue trivial
  | cons p rest ih => exact @instDecidableAnd _ _ _ (ih p.2)

/-- C1: on a running stopwatch (interval_start not 0), stop computes the
interval since interval_start, adds it to elapsed, appends it to laps,
zeroes interval_start, and returns the new cumulative elapsed total. -/
theorem stop_running_spec (s : Stopwatch) (tp : ℚ) (h : s.interval_start ≠ 0) :
    (s.stop tp).2 = s.elapsed + (tp - s.interval_start) ∧
    (s.stop tp).1.elapsed = s.elapsed + (tp - s.interval_start) ∧
    (s.stop tp).1.laps = s.laps ++ [tp - s.interval_start] ∧
    (s.stop tp).1.interval_start = 0 ∧
    (s.stop tp).2 = (s.stop tp).1.elapsed := by
  simp [Stopwatch.stop, if_neg h]

/-- Witness for stop_running_spec at a concrete running state. -/
theorem stop_running_spec_witness :
    ((⟨2, 2, 2, 1, [1]⟩ : Stopwatch).stop 5).2 = 1 + (5 - 2) ∧
    ((⟨2, 2, 2, 1, [1]⟩ : Stopwatch).stop 5).1.elapsed = 1 + (5 - 2) ∧
    ((⟨2, 2, 2, 1, [1]⟩ : Stopwatch).stop 5).1.laps = [1] ++ [5 - 2] ∧
    ((⟨2, 2, 2, 1, [1]⟩ : Stopwatch).stop 5).1.interval_start = 0 ∧
    ((⟨2, 2, 2, 1, [1]⟩ : Stopwatch).stop 5).2 =
      ((⟨2, 2, 2, 1, [1]⟩ : Stopwatch).stop 5).1.elapsed :=
  stop_running_spec ⟨2, 2, 2, 1, [1]⟩ 5 (by decide)

/-- C2: on a running stopwatch, lap adds the completed interval to elapsed,
appends it to laps, re-arms interval_start to the current timepoint, and
returns the interval, not the cumulative elapsed. -/
theorem lap_running_spec (s : Stopwatch) (tp : ℚ) (h : s.interval_start ≠ 0) :
    (s.lap tp).1.elapsed = s.elapsed + (tp - s.interval_start) ∧
    (s.lap tp).1.laps = s.laps ++ [tp - s.interval_start] ∧
    (s.lap tp).1.interval_start = tp ∧
    (s.lap tp).2 = tp - s.interval_start := by
  simp [Stopwatch.lap, if_neg h]

/-- Witness for lap_running_spec at a concrete running state. -/
theorem lap_running_spec_witness :
    ((⟨2, 2, 2, 1, [1]⟩ : Stopwatch).lap 5).1.elapsed = 1 + (5 - 2) ∧
    ((⟨2, 2, 2, 1, [1]⟩ : Stopwatch).lap 5).1.laps = [1] ++ [5 - 2] ∧
    ((⟨2, 2, 2, 1, [1]⟩ : Stopwatch).lap 5).1.interval_start = 5 ∧
    ((⟨2, 2, 2, 1, [1]⟩ : Stopwatch).lap 5).2 = 5 - 2 :=
  lap_running_spec ⟨2, 2, 2, 1, [1]⟩ 5 (by decide)

/-- C3: starting an already running stopwatch returns -1 and leaves
elapsed, laps and interval_start unchanged; only the bookkeeping field
end (the last observed timepoint) is updated to the current timepoint. -/
theorem start_running_spec (s : Stopwatch) (tp : ℚ) (h : s.interval_start ≠ 0) :
    (s.start tp).2 = -1 ∧
    (s.start tp).1.elapsed = s.elapsed ∧
    (s.start tp).1.laps = s.laps ∧
    (s.start tp).1.interval_start = s.interval_start ∧
    (s.start tp).1.«end» = tp := by
  simp [Stopwatch.start, if_pos h]

/-- Witness for start_running_spec at a concrete running state. -/
theorem start_running_spec_witness :
    ((⟨2, 2, 2, 1, [1]⟩ : Stopwatch).start 5).2 = -1 ∧
    ((⟨2, 2, 2, 1, [1]⟩ : Stopwatch).start 5).1.elapsed = 1 ∧
    ((⟨2, 2, 2, 1, [1]⟩ : Stopwatch).start 5).1.laps = [1] ∧
    ((⟨2, 2, 2, 1, [1]⟩ : Stopwatch).start 5).1.interval_start = 2 ∧
    ((⟨2, 2, 2, 1, [1]⟩ : Stopwatch).start 5).1.«end» = 5 :=
  start_running_spec ⟨2, 2, 2, 1, [1]⟩ 5 (by decide)

/-- C4 counterexample: stop on the freshly constructed (idle) stopwatch at
timepoint 7 returns -1 but does mutate a field, since the source writes
self.end = tp before the idle check; likewise for lap. -/
theorem stop_idle_mutates_state :
    (Stopwatch.new.stop 7).2 = -1 ∧ (Stopwatch.new.stop 7).1 ≠ Stopwatch.new ∧
    (Stopwatch.new.lap 7).2 = -1 ∧ (Stopwatch.new.lap 7).1 ≠ Stopwatch.new := by
  decide

/-- C4 amended: on an idle stopwatch, stop and lap return -1 and leave
every field unchanged except the bookkeeping field end, which is set to
the current timepoint. -/
theorem stop_lap_idle_spec (s : Stopwatch) (tp : ℚ) (h : s.interval_start = 0) :
    (s.stop tp).2 = -1 ∧ (s.lap tp).2 = -1 ∧
    (s.stop tp).1 = { s with «end» := tp } ∧
    (s.lap tp).1 = { s with «end» := tp } := by
  simp [Stopwatch.stop, Stopwatch.lap, if_pos h]

/-- Witness for stop_lap_idle_spec on the fresh stopwatch. -/
theorem stop_lap_idle_spec_witness :
    (Stopwatch.new.stop 7).2 = -1 ∧ (Stopwatch.new.lap 7).2 = -1 ∧
    (Stopwatch.new.stop 7).1 = { Stopwatch.new with «end» := 7 } ∧
    (Stopwatch.new.lap 7).1 = { Stopwatch.new with «end» := 7 } :=
  stop_lap_idle_spec Stopwatch.new 7 (by decide)

/-- C5 counterexample: construction does not zero every numeric field: the
bookkeeping field end (the last observed timepoint) is initialized to 3.0
by the source, not 0.0. -/
theorem new_end_nonzero : Stopwatch.new.«end» ≠ 0 := by decide

/-- C5 amended: construction zeroes interval_start, elapsed, lap_start and
the laps list, but initializes the bookkeeping field end to 3.0; there is
no failure mode (construction is total). -/
theorem new_spec :
    Stopwatch.new.interval_start = 0 ∧
    Stopwatch.new.elapsed = 0 ∧
    Stopwatch.new.laps = [] ∧
    Stopwatch.new.lap_start = 0 ∧
    Stopwatch.new.«end» = 3 := by
  decide

/-- C6: get_lap returns laps[index] when the index is below the lap count
and the sentinel -1 otherwise, without touching the state; in particular
get_lap 10 on a fresh instance returns -1. -/
theorem get_lap_spec (s : Stopwatch) (index : Nat) :
    (∀ h : index < s.get_lap_count, s.get_lap index = s.laps.get ⟨index, h⟩) ∧
    (s.get_lap_count ≤ index → s.get_lap index = -1) ∧
    Stopwatch.new.get_lap 10 = -1 := by
  refine ⟨fun h => dif_pos h, fun h => dif_neg (Nat.not_lt.mpr h), by decide⟩

/-- Witness for get_lap_spec: an in-range and an out-of-range query on a
stopwatch holding two laps. -/
theorem get_lap_spec_witness :
    (⟨0, 0, 3, 10, [4, 6]⟩ : Stopwatch).get_lap 2 = -1 ∧
    (⟨0, 0, 3, 10, [4, 6]⟩ : Stopwatch).get_lap 1 = 6 := by
  refine ⟨(get_lap_spec ⟨0, 0, 3, 10, [4, 6]⟩ 2).2.1 (by decide), ?_⟩
  have h := (get_lap_spec ⟨0, 0, 3, 10, [4, 6]⟩ 1).1 (by decide)
  rw [h]
  rfl

/-- C7: a start issued when the clock reads exactly 0 (the origin instant)
succeeds and returns 0, but stores 0 into interval_start, so the stopwatch
is afterwards misread as idle: a later stop or lap returns -1 and appends
no lap. -/
theorem start_at_origin_spec (s : Stopwatch) (h : s.interval_start = 0) (tp : ℚ) :
    (s.start 0).2 = 0 ∧
    (s.start 0).1.interval_start = 0 ∧
    ((s.start 0).1.stop tp).2 = -1 ∧
    ((s.start 0).1.lap tp).2 = -1 ∧
    ((s.start 0).1.stop tp).1.laps = s.laps ∧
    ((s.start 0).1.lap tp).1.laps = s.laps := by
  have h1 : s.start 0 = ({ s with «end» := 0, interval_start := 0 }, 0) := by
    simp [Stopwatch.start, h]
  rw [h1]
  simp [Stopwatch.stop, Stopwatch.lap]

/-- Witness for start_at_origin_spec on the fresh stopwatch. -/
theorem start_at_origin_spec_witness :
    (Stopwatch.new.start 0).2 = 0 ∧
    (Stopwatch.new.start 0).1.interval_start = 0 ∧
    ((Stopwatch.new.start 0).1.stop 7).2 = -1 ∧
    ((Stopwatch.new.start 0).1.lap 7).2 = -1 ∧
    ((Stopwatch.new.start 0).1.stop 7).1.laps = Stopwatch.new.laps ∧
    ((Stopwatch.new.start 0).1.lap 7).1.laps = Stopwatch.new.laps :=
  start_at_origin_spec Stopwatch.new (by decide) 7

/-- C9: the laps sequence is append-only: after any single operation the
old laps list is a prefix of the new one, a successful stop or lap appends
exactly the one completed interval at the end, and get_lap_count always
returns the length of laps. -/
theorem laps_append_only (s : Stopwatch) (o : Op) (tp : ℚ) :
    (∃ t, (s.step o tp).laps = s.laps ++ t) ∧
    s.get_lap_count = s.laps.length ∧
    (s.interval_start ≠ 0 →
      (s.stop tp).1.laps = s.laps ++ [tp - s.interval_start] ∧
      (s.lap tp).1.laps = s.laps ++ [tp - s.interval_start]) := by
  refine ⟨?_, rfl, fun h => by simp [Stopwatch.stop, Stopwatch.lap, if_neg h]⟩
  cases o with
  | start =>
    simp only [Stopwatch.step, Stopwatch.start]
    split
    · exact ⟨[], by simp⟩
    · exact ⟨[], by simp⟩
  | stop =>
    simp only [Stopwatch.step, Stopwatch.stop]
    split
    · exact ⟨[], by simp⟩
    · exact ⟨[tp - s.interval_start], rfl⟩
  | lap =>
    simp only [Stopwatch.step, Stopwatch.lap]
    split
    · exact ⟨[], by simp⟩
    · exact ⟨[tp - s.interval_start], rfl⟩
  | get_lap i => exact ⟨[], by simp [Stopwatch.step]⟩
  | get_lap_count => exact ⟨[], by simp [Stopwatch.step]⟩

/-- Witness for laps_append_only on a concrete running state. -/
theorem laps_append_only_witness :
    (∃ t, ((⟨2, 2, 2, 1, [1]⟩ : Stopwatch).step Op.lap 5).laps = [1] ++ t) ∧
    (⟨2, 2, 2, 1, [1]⟩ : Stopwatch).get_lap_count = ([1] : List ℚ).length ∧
    ((⟨2, 2, 2, 1, [1]⟩ : Stopwatch).stop 5).1.laps = [1] ++ [5 - 2] ∧
    ((⟨2, 2, 2, 1, [1]⟩ : Stopwatch).lap 5).1.laps = [1] ++ [5 - 2] := by
  have h := laps_append_only ⟨2, 2, 2, 1, [1]⟩ Op.lap 5
  exact ⟨h.1, h.2.1, h.2.2 (by decide)⟩

/-- One step preserves the invariant that elapsed is the sum of laps. -/
theorem step_preserves_elapsed_eq_sum (s : Stopwatch) (o : Op) (tp : ℚ)
    (h : s.elapsed = s.laps.sum) :
    (s.step o tp).elapsed = (s.step o tp).laps.sum := by
  cases o <;>
    simp only [Stopwatch.step, Stopwatch.start, Stopwatch.stop, Stopwatch.lap] <;>
    try split
  all_goals simp [h]

/-- Running any trace from a state where elapsed is the sum of laps keeps
elapsed equal to the sum of laps. -/
theorem runFrom_preserves_elapsed_eq_sum (s : Stopwatch) (tr : List (Op × ℚ))
    (h : s.elapsed = s.laps.sum) :
    (s.runFrom tr).elapsed = (s.runFrom tr).laps.sum := by
  induction tr generalizing s with
  | nil => exact h
  | cons p rest ih =>
    exact ih (s.step p.1 p.2) (step_preserves_elapsed_eq_sum s p.1 p.2 h)

/-- C10: in every state reachable from construction by any call sequence,
elapsed equals the sum of the entries currently stored in laps. -/
theorem elapsed_eq_sum_laps (tr : List (Op × ℚ)) :
    (Stopwatch.new.runFrom tr).elapsed = (Stopwatch.new.runFrom tr).laps.sum :=
  runFrom_preserves_elapsed_eq_sum Stopwatch.new tr rfl

/-- One step never decreases elapsed when the clock reading is at least
the stored interval_start (the monotonic-clock guarantee). -/
theorem step_elapsed_mono (s : Stopwatch) (o : Op) (tp : ℚ)
    (h : s.interval_start ≤ tp) : s.elapsed ≤ (s.step o tp).elapsed := by
  cases o with
  | start =>
    simp only [Stopwatch.step, Stopwatch.start]
    split <;> exact le_refl _
  | stop =>
    simp only [Stopwatch.step, Stopwatch.stop]
    split
    · exact le_refl _
    · show s.elapsed ≤ s.elapsed + (tp - s.interval_start)
      linarith
  | lap =>
    simp only [Stopwatch.step, Stopwatch.lap]
    split
    · exact le_refl _
    · show s.elapsed ≤ s.elapsed + (tp - s.interval_start)
      linarith
  | get_lap i => exact le_refl _
  | get_lap_count => exact le_refl _

/-- After a step at a nonnegative clock reading tp that is at least the
stored interval_start, the new interval_start is still at most tp, so the
next (no earlier) clock reading again dominates it. -/
theorem step_interval_start_le (s : Stopwatch) (o : Op) (tp : ℚ)
    (h0 : 0 ≤ tp) (h : s.interval_start ≤ tp) :
    (s.step o tp).interval_start ≤ tp := by
  cases o with
  | start =>
    simp only [Stopwatch.step, Stopwatch.start]
    split
    · exact h
    · exact le_refl tp
  | stop =>
    simp only [Stopwatch.step, Stopwatch.stop]
    split
    · exact h
    · exact h0
  | lap =>
    simp only [Stopwatch.step, Stopwatch.lap]
    split
    · exact h
    · exact le_refl tp
  | get_lap i => exact h
  | get_lap_count => exact h

/-- Elapsed after a whole monotone trace is at least elapsed before it,
from any state whose interval_start is dominated by the trace's clock. -/
theorem runFrom_elapsed_mono (s : Stopwatch) (lo : ℚ) (tr : List (Op × ℚ))
    (h0 : 0 ≤ lo) (hs : s.interval_start ≤ lo) (hm : monoTimes lo tr) :
    s.elapsed ≤ (s.runFrom tr).elapsed := by
  induction tr generalizing s lo with
  | nil => exact le_refl _
  | cons p rest ih =>
    obtain ⟨h1, h2⟩ := hm
    have hstep := step_elapsed_mono s p.1 p.2 (le_trans hs h1)
    have hint := step_interval_start_le s p.1 p.2 (le_trans h0 h1) (le_trans hs h1)
    exact le_trans hstep (ih (s.step p.1 p.2) p.2 (le_trans h0 h1) hint h2)

/-- Elapsed after a prefix of a monotone trace is at most elapsed after
the whole trace. -/
theorem runFrom_append_elapsed_mono (s : Stopwatch) (lo : ℚ)
    (tr₁ tr₂ : List (Op × ℚ)) (h0 : 0 ≤ lo) (hs : s.interval_start ≤ lo)
    (hm : monoTimes lo (tr₁ ++ tr₂)) :
    (s.runFrom tr₁).elapsed ≤ (s.runFrom (tr₁ ++ tr₂)).elapsed := by
  induction tr₁ generalizing s lo with
  | nil => exact runFrom_elapsed_mono s lo tr₂ h0 hs hm
  | cons p rest ih =>
    obtain ⟨h1, h2⟩ := hm
    have hint := step_interval_start_le s p.1 p.2 (le_trans h0 h1) (le_trans hs h1)
    exact ih (s.step p.1 p.2) p.2 (le_trans h0 h1) hint h2

/-- C8: elapsed is monotonically non-decreasing over every call sequence
from construction: with nonnegative, never-decreasing clock readings (the
monotonic-clock assumption), the elapsed value after any prefix of the
sequence is at most the elapsed value after the whole sequence. -/
theorem elapsed_monotone (tr₁ tr₂ : List (Op × ℚ))
    (hm : monoTimes 0 (tr₁ ++ tr₂)) :
    (Stopwatch.new.runFrom tr₁).elapsed ≤
      (Stopwatch.new.runFrom (tr₁ ++ tr₂)).elapsed :=
  runFrom_append_elapsed_mono Stopwatch.new 0 tr₁ tr₂ (le_refl 0) (le_refl 0) hm

/-- Witness for elapsed_monotone on a concrete monotone trace. -/
theorem elapsed_monotone_witness :
    (Stopwatch.new.runFrom [(Op.start, 1)]).elapsed ≤
      (Stopwatch.new.runFrom
        ([(Op.start, 1)] ++ [(Op.lap, 2), (Op.stop, 4)])).elapsed :=
  elapsed_monotone [(Op.start, 1)] [(Op.lap, 2), (Op.stop, 4)] (by decide)
